import Mathlib

/-!
# Verification of the mailbot IMAP watcher plugin

Shallow embedding of the koishi `mailbot` plugin and proofs about it.

The repository contains two copies of the plugin:

* `src/unnamed/part_000` — the current version: the content pipeline
  (`parseEmailContent` / `cleanEmailContent`), a watcher that reserves UIDs in
  `lastCheckedUids` *before* issuing the fetch, and a dispatcher that awaits
  `ctx.broadcast` and marks mail read on success;
* `src/src/index.ts` — an older duplicate: UIDs are added to
  `lastCheckedUids` only inside the per-message `attributes` handler (after the
  fetch was issued), `ctx.broadcast` is called without `await`, and the
  post-processing action is flag-`\Deleted`-then-expunge.

Both variants are embedded below.  Pure string processing is embedded at the
`List Char` level; the watcher lifecycle is embedded as a record of the mutable
module-level state plus one Lean function per JS function, with asynchronous
inputs (search results, connection outcomes, broadcast outcomes) passed in as
explicit parameters.
-/

namespace Mailbot

/-! ## Content pipeline: `cleanEmailContent` (src/unnamed/part_000, lines 68–135)

JavaScript string primitives used by the code, modelled on `List Char`:
`String.prototype.trim`, `String.prototype.split('\n')`, `Array.join('\n')`,
and the regular expressions of `cleanEmailContent`.
-/

/-- The character class matched by JavaScript `\s` (which is also the set of
characters removed by `String.prototype.trim`). -/
def isJsSpace (c : Char) : Bool :=
  c == ' ' || c == '\t' || c == '\n' || c == '\r' ||
  c.toNat == 0x0b || c.toNat == 0x0c ||
  c.toNat == 0xa0 || c.toNat == 0x1680 ||
  (decide (0x2000 ≤ c.toNat) && decide (c.toNat ≤ 0x200a)) ||
  c.toNat == 0x2028 || c.toNat == 0x2029 || c.toNat == 0x202f ||
  c.toNat == 0x205f || c.toNat == 0x3000 || c.toNat == 0xfeff

/-- Left part of JS `trim`: drop leading whitespace. -/
def trimLead (l : List Char) : List Char := l.dropWhile isJsSpace

/-- Right part of JS `trim`: drop trailing whitespace. -/
def trimTrail : List Char → List Char
  | [] => []
  | c :: cs =>
    match trimTrail cs with
    | [] => if isJsSpace c then [] else [c]
    | r => c :: r

/-- JS `String.prototype.trim`. -/
def trimChars (l : List Char) : List Char := trimTrail (trimLead l)

/-- JS `str.split('\n')`: always returns at least one piece; a trailing
newline yields a trailing empty piece. -/
def splitLines : List Char → List (List Char)
  | [] => [[]]
  | c :: cs =>
    if c = '\n' then [] :: splitLines cs
    else
      match splitLines cs with
      | [] => [[c]]
      | l :: ls => (c :: l) :: ls

/-- JS `arr.join('\n')`. -/
def joinLines : List (List Char) → List Char
  | [] => []
  | [l] => l
  | l :: l2 :: ls => l ++ '\n' :: joinLines (l2 :: ls)

/-- JS word character (`\w` = `[A-Za-z0-9_]`), the class that defines `\b`
word boundaries in a non-unicode-mode regex.  CJK characters are *not* word
characters. -/
def isWordChar (c : Char) : Bool :=
  (decide (97 ≤ c.toNat) && decide (c.toNat ≤ 122)) ||
  (decide (65 ≤ c.toNat) && decide (c.toNat ≤ 90)) ||
  (decide (48 ≤ c.toNat) && decide (c.toNat ≤ 57)) ||
  c == '_'

/-- Case-insensitive character comparison (the `/i` flag; ASCII folding, which
covers every letter appearing in the plugin's patterns). -/
def ciEq (a b : Char) : Bool := a.toLower == b.toLower

/-- Try to match a (nonempty) token case-insensitively at the head of the
input; on success return the last *subject* character consumed and the rest of
the input (both are needed for the trailing `\b` test). -/
def ciMatchRest : List Char → List Char → Option (Char × List Char)
  | [], _ => none
  | [t], c :: cs => if ciEq t c then some (c, cs) else none
  | t :: t2 :: ts, c :: cs => if ciEq t c then ciMatchRest (t2 :: ts) cs else none
  | _ :: _, [] => none

/-- Word-character status of the next character (`false` at end of string),
as used by the `\b` assertion. -/
def nextIsWord : List Char → Bool
  | [] => false
  | c :: _ => isWordChar c

/-- Does `/\btok\b/i` match exactly at the current position?  `prevWord` is
the word-character status of the preceding character (`false` at the start of
the string).  A JS word boundary holds at a position iff the word-character
statuses of the two surrounding characters differ. -/
def tokAtHere (prevWord : Bool) (cs : List Char) (tok : List Char) : Bool :=
  match cs with
  | [] => false
  | c :: _ =>
    match ciMatchRest tok cs with
    | none => false
    | some (lastC, rest) =>
      (prevWord != isWordChar c) && (isWordChar lastC != nextIsWord rest)

/-- The alternatives of `/\b(code|验证码|密码|password|auth|token|key)\b/i`. -/
def sensitiveToks : List (List Char) :=
  ["code".data, "验证码".data, "密码".data, "password".data,
   "auth".data, "token".data, "key".data]

/-- Scan every position of the line for a `\b`-delimited sensitive token;
`prevWord` tracks the word-character status of the previous character. -/
def hasImportantFrom : Bool → List Char → Bool
  | _, [] => false
  | prevWord, c :: cs =>
    sensitiveToks.any (tokAtHere prevWord (c :: cs)) || hasImportantFrom (isWordChar c) cs

/-- `/\b(code|验证码|密码|password|auth|token|key)\b/i.test(line)` — the
"important information" guard of `cleanEmailContent`. -/
def hasImportantInfo (l : List Char) : Bool := hasImportantFrom false l

/-- `/^[|]+\s*$/` — a line of one or more pipes then optional whitespace. -/
def sepPipesOnly (l : List Char) : Bool :=
  match l with
  | '|' :: rest => (rest.dropWhile (fun c => c == '|')).all isJsSpace
  | _ => false

/-- `/^\s*[-]+\s*$/` — a dashes-only separator line. -/
def sepDashLine (l : List Char) : Bool :=
  match l.dropWhile isJsSpace with
  | '-' :: rest => (rest.dropWhile (fun c => c == '-')).all isJsSpace
  | _ => false

/-- `/^[|]\s*[|]\s*$/` — a `| |` pattern line. -/
def sepPipePipe (l : List Char) : Bool :=
  match l with
  | '|' :: rest =>
    match rest.dropWhile isJsSpace with
    | '|' :: rest2 => rest2.all isJsSpace
    | _ => false
  | _ => false

/-- `/^\s*[|]\s*$/` — a lone pipe line. -/
def sepLonePipe (l : List Char) : Bool :=
  match l.dropWhile isJsSpace with
  | '|' :: rest => rest.all isJsSpace
  | _ => false

/-- The signature-separator test of `cleanEmailContent` (the four `line.match`
alternatives at lines 96–101 of `src/unnamed/part_000`). -/
def isSignatureSep (l : List Char) : Bool :=
  sepPipesOnly l || sepDashLine l || sepPipePipe l || sepLonePipe l

/-- No JS whitespace anywhere in the line (each regex piece is `[^\s]+`). -/
def noSpaceAll (l : List Char) : Bool := l.all (fun c => !(isJsSpace c))

/-- `/^[^\s]+@[^\s]+\.[^\s]+$/.test(line)`: the whole line is whitespace-free
and decomposes as `a ++ "@" ++ b ++ "." ++ c` with `a`, `b`, `c` nonempty;
equivalently there are positions `i ≥ 1` with `'@'` and `j ∈ [i+2, len-2]`
with `'.'`. -/
def isBareEmail (l : List Char) : Bool :=
  noSpaceAll l &&
  ((List.range l.length).any fun i =>
    (List.range l.length).any fun j =>
      decide (1 ≤ i) && decide (i + 2 ≤ j) && decide (j + 2 ≤ l.length) &&
      (l.getD i ' ' == '@') && (l.getD j ' ' == '.'))

/-- Strip a token from the head of the input, case-insensitively; return the
remainder on success. -/
def ciStrip : List Char → List Char → Option (List Char)
  | [], cs => some cs
  | _ :: _, [] => none
  | p :: ps, c :: cs => if ciEq p c then ciStrip ps cs else none

/-- `/^(h1|h2|h3):\s*[^\s]+@[^\s]+\.[^\s]+$/i.test(line)` for a list of
heading alternatives: heading, colon, optional whitespace, then a full email
address reaching the end of the line. -/
def headedEmail (heads : List (List Char)) (l : List Char) : Bool :=
  heads.any fun h =>
    match ciStrip h l with
    | some (':' :: rest) => isBareEmail (rest.dropWhile isJsSpace)
    | _ => false

/-- The `isEmailSignature` test of `cleanEmailContent` (lines 108–115 of
`src/unnamed/part_000`). -/
def isEmailSignature (l : List Char) : Bool :=
  isBareEmail l ||
  headedEmail ["发件人".data, "from".data, "sender".data] l ||
  headedEmail ["邮箱".data, "email".data, "联系".data] l

/-- The per-line scan loop of `cleanEmailContent`: skip blank lines, keep
protected (sensitive) lines, stop at a signature separator or an email
signature, otherwise keep the line. -/
def scanLines : List (List Char) → List (List Char)
  | [] => []
  | l :: rest =>
    if l = [] then scanLines rest
    else if hasImportantInfo l then l :: scanLines rest
    else if isSignatureSep l then []
    else if isEmailSignature l then []
    else if l.length > 0 then l :: scanLines rest
    else scanLines rest

/-- `cleanEmailContent` on the character-list level:
`split('\n')`, `map(trim)`, the scan loop, `join('\n')`, `trim()`. -/
def cleanChars (cs : List Char) : List Char :=
  trimChars (joinLines (scanLines ((splitLines cs).map trimChars)))

/-- `cleanEmailContent(rawText)` (src/unnamed/part_000, lines 68–135).
`if (!rawText) return ''` is the empty-string guard. -/
def cleanEmailContent (rawText : String) : String :=
  if rawText = "" then "" else String.mk (cleanChars rawText.data)

/-! ## Watcher state machine (src/unnamed/part_000, lines 202–494)

The module-level mutable variables become one record.  `imap` (the live
session) and its attached listeners are tracked as booleans; timers are
tracked as `Option Nat` holding the delay they were armed with; the ghost
counter `reconnectsScheduled` counts `setTimeout` calls that arm the
reconnect timer.  Asynchronous inputs — the `UNSEEN` search outcome, the
fetched message for each UID, connection outcomes — are passed as explicit
parameters. -/

/-- The parts of a fetched message the watcher claims depend on: the sequence
number used for sorting and the UID delivered by the `attributes` event. -/
structure MessageRec where
  seqno : Nat
  uid : Nat
  deriving Repr, DecidableEq

/-- Observable effects of one call to `fetchLatestUnread` (one detection
pass): whether `imap.search` was issued, the UID list handed to `imap.fetch`
(`[]` = no fetch), the contents of `lastCheckedUids` at the moment the fetch
was issued, the sorted batch passed to the callback, and the number of
callback invocations. -/
structure PassOut where
  searchIssued : Bool
  fetched : List Nat
  ledgerAtFetch : List Nat
  batch : List MessageRec
  dispatches : Nat
  deriving Repr, DecidableEq

/-- The outcome of a detection trigger that ran no pass at all. -/
def PassOut.idle : PassOut := ⟨false, [], [], [], 0⟩

/-- The module-level watcher state (src/unnamed/part_000, lines 202–211). -/
structure MonitorState where
  isMonitoring : Bool
  hasImap : Bool
  listeners : Bool
  pollTimer : Option Nat
  reconnectTimer : Option Nat
  lastMailCount : Nat
  lastCheckedUids : List Nat
  reconnectsScheduled : Nat
  deriving Repr, DecidableEq

/-- Poll interval passed to `setTimeout` in `startPolling` (line 344). -/
def pollIntervalMs : Nat := 10000

/-- Reconnect delay passed to `setTimeout` in `handleDisconnect` (line 485). -/
def reconnectDelayMs : Nat := 10000

/-- `lastCheckedUids.add(uid)` — JS `Set.add`: insertion-ordered, no
duplicates. -/
def setAdd (l : List Nat) (u : Nat) : List Nat :=
  if u ∈ l then l else l ++ [u]

/-- One step of the insertion sort modelling
`messages.sort((a, b) => b.key - a.key)`: insert before the first strictly
smaller key. -/
def insertDesc (key : MessageRec → Nat) (m : MessageRec) : List MessageRec → List MessageRec
  | [] => [m]
  | x :: xs => if key x < key m then m :: x :: xs else x :: insertDesc key m xs

/-- `messages.sort((a, b) => b.key - a.key)` — sort descending by key. -/
def sortDesc (key : MessageRec → Nat) (l : List MessageRec) : List MessageRec :=
  l.foldr (insertDesc key) []

/-- The body of `fetchLatestUnread` after a non-empty `UNSEEN` search result
(src/unnamed/part_000, lines 362–463): filter out UIDs already in
`lastCheckedUids`; if none are new, return; otherwise *first* add every
selected UID to `lastCheckedUids` (lines 374–378), *then* issue the fetch for
exactly those UIDs (line 381), sort the collected messages by descending
`seqno` and invoke the callback once if the batch is nonempty. -/
def passCore (st : MonitorState) (results : List Nat) (msgs : Nat → MessageRec) :
    MonitorState × PassOut :=
  let newUids := results.filter fun u => decide (u ∉ st.lastCheckedUids)
  if newUids = [] then (st, ⟨true, [], [], [], 0⟩)
  else
    let ledger2 := newUids.foldl setAdd st.lastCheckedUids
    let batch := sortDesc MessageRec.seqno (newUids.map msgs)
    ({ st with lastCheckedUids := ledger2 },
     ⟨true, newUids, ledger2, batch, if batch.length > 0 then 1 else 0⟩)

/-- `fetchLatestUnread()` (src/unnamed/part_000, lines 348–465).  The result
of `imap.search(['UNSEEN'])` is passed in as `q` (`Except.error` = the search
callback received an error). -/
def fetchLatestUnread (st : MonitorState) (q : Except Unit (List Nat))
    (msgs : Nat → MessageRec) : MonitorState × PassOut :=
  if st.hasImap && st.isMonitoring then
    match q with
    | .error _ => (st, ⟨true, [], [], [], 0⟩)
    | .ok results =>
      if results = [] then (st, ⟨true, [], [], [], 0⟩)
      else passCore st results msgs
  else (st, PassOut.idle)

/-- `startPolling()` (lines 335–345): arm the poll timer only while
monitoring. -/
def startPolling (st : MonitorState) : MonitorState :=
  if st.isMonitoring then { st with pollTimer := some pollIntervalMs } else st

/-- The poll timer callback firing (lines 338–343): the one-shot timer is
consumed; if still monitoring, run a detection pass and re-arm. -/
def pollFire (st : MonitorState) (q : Except Unit (List Nat))
    (msgs : Nat → MessageRec) : MonitorState × PassOut :=
  let st0 := { st with pollTimer := none }
  if st0.isMonitoring then
    let r := fetchLatestUnread st0 q msgs
    (startPolling r.1, r.2)
  else (st0, PassOut.idle)

/-- `stopMailMonitor()` (lines 234–260): clear both timers, detach listeners
and end the session, clear the Dedup Ledger. -/
def stopMailMonitor (st : MonitorState) : MonitorState :=
  { isMonitoring := false, hasImap := false, listeners := false,
    pollTimer := none, reconnectTimer := none,
    lastMailCount := st.lastMailCount, lastCheckedUids := [],
    reconnectsScheduled := st.reconnectsScheduled }

/-- `handleDisconnect()` (lines 467–486): a no-op unless monitoring;
otherwise detach all listeners, drop the session and arm the reconnect timer
(one `setTimeout` call, counted by `reconnectsScheduled`). -/
def handleDisconnect (st : MonitorState) : MonitorState :=
  if st.isMonitoring then
    { st with listeners := false, hasImap := false,
              reconnectTimer := some reconnectDelayMs,
              reconnectsScheduled := st.reconnectsScheduled + 1 }
  else st

/-- A session `error`/`end` event reaching the watcher: the handlers run only
while they are still attached (`handleDisconnect` itself calls
`imap.removeAllListeners()`, so the second event of an error-then-end pair
finds no handler). -/
def disconnectEvent (st : MonitorState) : MonitorState :=
  if st.listeners then handleDisconnect st else st

/-- Outcome of one `connectToMailMonitor()` attempt: failure, or success with
the selected folder's total message count and the `UNSEEN` search result of
the immediate first detection pass. -/
inductive ConnOutcome where
  | fail : ConnOutcome
  | success : Nat → List Nat → ConnOutcome
  deriving Repr, DecidableEq

/-- `connectToMailMonitor` + `openBoxAndListen` succeeding (lines 263–332):
the session is live with listeners attached, `lastMailCount` is set to the
folder total, one immediate detection pass runs, and polling starts.
`lastCheckedUids` is not touched. -/
def connectFlow (st : MonitorState) (total : Nat) (results : List Nat)
    (msgs : Nat → MessageRec) : MonitorState × PassOut :=
  let st1 := { st with hasImap := true, listeners := true, lastMailCount := total }
  let r := fetchLatestUnread st1 (.ok results) msgs
  (startPolling r.1, r.2)

/-- Result of one reconnect-timer firing: whether a connection attempt was
made, and the detection pass run on a successful reconnect. -/
structure ReconnectOut where
  attempted : Bool
  pass : PassOut
  deriving Repr, DecidableEq

/-- The reconnect timer callback firing (lines 478–485): the one-shot timer
is consumed; if still monitoring, attempt `connectToMailMonitor()` (a failure
is handled by `handleDisconnect` via the session `error` handler, re-arming
the timer). -/
def reconnectFire (st : MonitorState) (conn : ConnOutcome)
    (msgs : Nat → MessageRec) : MonitorState × ReconnectOut :=
  let st0 := { st with reconnectTimer := none }
  if st0.isMonitoring then
    match conn with
    | .fail => (handleDisconnect { st0 with hasImap := true, listeners := true },
                ⟨true, PassOut.idle⟩)
    | .success total results =>
      let r := connectFlow st0 total results msgs
      (r.1, ⟨true, r.2⟩)
  else (st0, ⟨false, PassOut.idle⟩)

/-- How `startMailMonitor` returned. -/
inductive StartResult where
  | duplicate : StartResult
  | ok : StartResult
  | failed : StartResult
  deriving Repr, DecidableEq

/-- `startMailMonitor(config, onNewMail)` (lines 213–231): warn-and-return if
already monitoring; otherwise set `isMonitoring := true` and connect.  On a
connection failure the session's `error` handler runs `handleDisconnect`
(lines 290–294) before the rejection reaches the `catch`, which resets
`isMonitoring := false` and rethrows. -/
def startMailMonitor (st : MonitorState) (conn : ConnOutcome)
    (msgs : Nat → MessageRec) : MonitorState × StartResult :=
  if st.isMonitoring then (st, .duplicate)
  else
    let st1 := { st with isMonitoring := true }
    match conn with
    | .success total results => ((connectFlow st1 total results msgs).1, .ok)
    | .fail =>
      let st2 := handleDisconnect { st1 with hasImap := true, listeners := true }
      ({ st2 with isMonitoring := false }, .failed)

/-- The record returned by `getMonitorStatus()` (lines 488–494). -/
structure MonitorStatus where
  isMonitoring : Bool
  lastMailCount : Nat
  deriving Repr, DecidableEq

/-- `getMonitorStatus()` — a pure read. -/
def getMonitorStatus (st : MonitorState) : MonitorStatus :=
  ⟨st.isMonitoring, st.lastMailCount⟩

/-- A sequence of detection passes within one watcher run, each with its own
`UNSEEN` search result, threading the state. -/
def runPasses (msgs : Nat → MessageRec) :
    MonitorState → List (List Nat) → MonitorState × List PassOut
  | st, [] => (st, [])
  | st, s :: rest =>
    let p := fetchLatestUnread st (.ok s) msgs
    let r := runPasses msgs p.1 rest
    (r.1, p.2 :: r.2)

/-! ## The older duplicate `src/src/index.ts`

In that variant `fetchLatestUnread` (lines 242–333) filters the search result
against `lastCheckedUids` and issues the fetch, but `lastCheckedUids.add` only
happens inside the per-message `attributes` handler (lines 303–310), i.e.
while the fetch response streams in.  Until then an overlapping detection
trigger still sees the old ledger.  Modelled as a machine over two kinds of
events: a detection trigger (with its search result) and the delivery of the
oldest in-flight fetch. -/

/-- Events of the `src/src/index.ts` detection machine. -/
inductive IdxEv where
  | trigger : List Nat → IdxEv
  | deliver : IdxEv
  deriving Repr, DecidableEq

/-- State and observable log of the `src/src/index.ts` detection machine. -/
structure IdxState where
  ledger : List Nat
  inFlight : List (List Nat)
  fetchedLog : List (List Nat)
  batches : List (List Nat)
  deriving Repr, DecidableEq

/-- One event step of the `src/src/index.ts` variant: a trigger filters
against the *current* ledger and issues a fetch without touching the ledger;
a delivery adds the fetched UIDs to the ledger (the `attributes` handlers)
and dispatches the batch (the fetch `end` handler). -/
def idxStep (st : IdxState) : IdxEv → IdxState
  | .trigger results =>
    let newUids := results.filter fun u => decide (u ∉ st.ledger)
    if newUids = [] then st
    else { st with inFlight := st.inFlight ++ [newUids],
                   fetchedLog := st.fetchedLog ++ [newUids] }

  | .deliver =>
    match st.inFlight with
    | [] => st
    | uids :: rest =>
      { ledger := uids.foldl setAdd st.ledger,
        inFlight := rest,
        fetchedLog := st.fetchedLog,
        batches := st.batches ++ [uids] }

/-- Run the `src/src/index.ts` detection machine from a fresh watcher run
(empty ledger, nothing in flight). -/
def idxRun (evs : List IdxEv) : IdxState :=
  evs.foldl idxStep ⟨[], [], [], []⟩

/-- Outcome of `ctx.broadcast(msg)` as seen by the surrounding JS code: the
returned promise resolves, the returned promise rejects, or the call itself
throws synchronously. -/
inductive SendOutcome where
  | ok : SendOutcome
  | asyncFail : SendOutcome
  | syncThrow : SendOutcome
  deriving Repr, DecidableEq

/-- What happened to one message in the dispatch loop of the
`src/src/index.ts` `handleNewMail`. -/
structure DispatchStep where
  uid : Nat
  broadcastIssued : Bool
  deleted : Bool
  deriving Repr, DecidableEq

/-- The dispatch loop of `handleNewMail` in `src/src/index.ts` (lines
567–620): for each message, `ctx.broadcast(notificationMsg)` is called
*without* `await` (line 604), so only a synchronous throw reaches the
`catch`; otherwise control falls through to `await deleteEmailByUid(msg.uid)`
(flag `\Deleted` + expunge) regardless of whether the broadcast promise later
resolves or rejects.  A delete failure is caught and logged and the loop
continues. -/
def handleNewMailIndexTs (send : Nat → SendOutcome) (deleteOk : Nat → Bool)
    (batch : List MessageRec) : List DispatchStep :=
  batch.map fun m =>
    match send m.uid with
    | .syncThrow => ⟨m.uid, true, false⟩
    | _ => ⟨m.uid, true, deleteOk m.uid⟩

/-! ## Read-only listing (`mailbot.list`), src/unnamed/part_000 lines 515–591
and 879–900 -/

/-- A folder as seen by a short-lived listing session: total message count
and the message stored at each sequence number. -/
structure Mailbox where
  total : Nat
  msgAt : Nat → MessageRec

/-- `getMailList(imap, mailbox, limit)` (lines 515–591): empty folder gives
`[]`; otherwise fetch the sequence-number range
`Math.max(1, total - limit + 1) : total` and sort the collected messages by
descending sequence number. -/
def getMailList (box : Mailbox) (limit : Nat) : List MessageRec :=
  if box.total = 0 then []
  else
    let start : Nat := (max 1 ((box.total : Int) - (limit : Int) + 1)).toNat
    let fetched := (List.range' start (box.total + 1 - start)).map box.msgAt
    sortDesc MessageRec.seqno fetched

/-- The `'all'` arm of the `mailbot.list` command (lines 888–899): try
`searchMails(imap, 'INBOX', ['ALL'], limit)`; if the search is rejected, fall
back to `getMailList`.  The search outcome is passed in; a successful search
yields the already-collected message list. -/
def listAllMessages (searchAll : Except Unit (List MessageRec)) (box : Mailbox)
    (limit : Nat) : List MessageRec :=
  match searchAll with
  | .ok msgs => msgs
  | .error _ => getMailList box limit

/-! ## Auxiliary predicates used by the proofs -/

/-- The first character (if any) is not JS whitespace. -/
def noLeadSpace : List Char → Bool
  | [] => true
  | c :: _ => !isJsSpace c

/-- The last character (if any) is not JS whitespace. -/
def noTrailSpace : List Char → Bool
  | [] => true
  | [c] => !isJsSpace c
  | _ :: c :: cs => noTrailSpace (c :: cs)

/-- A line that the scan loop of `cleanEmailContent` passes through unchanged:
either protected as sensitive, or matching neither stop heuristic. -/
def keepLine (l : List Char) : Bool :=
  hasImportantInfo l || (!isSignatureSep l && !isEmailSignature l)

/-! ## Lemmas about `trim` -/

theorem noLeadSpace_trimLead (l : List Char) : noLeadSpace (trimLead l) = true := by
  induction l with
  | nil => rfl
  | cons c cs ih =>
    by_cases h : isJsSpace c
    · simpa [trimLead, List.dropWhile_cons, h] using ih
    · simp [trimLead, List.dropWhile_cons, h, noLeadSpace]

theorem trimLead_eq_self {l : List Char} (h : noLeadSpace l = true) : trimLead l = l := by
  cases l with
  | nil => rfl
  | cons c cs =>
    simp only [noLeadSpace, Bool.not_eq_true'] at h
    simp [trimLead, List.dropWhile_cons, h]

theorem noTrailSpace_trimTrail (l : List Char) : noTrailSpace (trimTrail l) = true := by
  induction l with
  | nil => rfl
  | cons c cs ih =>
    rw [trimTrail]
    cases h : trimTrail cs with
    | nil =>
      by_cases hc : isJsSpace c
      · simp [hc, noTrailSpace]
      · simp [hc, noTrailSpace]
    | cons x xs =>
      have : noTrailSpace (x :: xs) = true := by rw [← h]; exact ih
      simpa [noTrailSpace] using this

theorem trimTrail_eq_self {l : List Char} (h : noTrailSpace l = true) : trimTrail l = l := by
  induction l with
  | nil => rfl
  | cons c cs ih =>
    cases cs with
    | nil =>
      simp only [noTrailSpace, Bool.not_eq_true'] at h
      simp [trimTrail, h]
    | cons c2 cs2 =>
      have h2 : noTrailSpace (c2 :: cs2) = true := by simpa [noTrailSpace] using h
      rw [trimTrail, ih h2]

theorem noLeadSpace_trimTrail {l : List Char} (h : noLeadSpace l = true) :
    noLeadSpace (trimTrail l) = true := by
  cases l with
  | nil => rfl
  | cons c cs =>
    simp only [noLeadSpace, Bool.not_eq_true'] at h
    rw [trimTrail]
    cases h2 : trimTrail cs with
    | nil => simp [h, noLeadSpace]
    | cons x xs => simp [h, noLeadSpace]

theorem trimChars_noLead (l : List Char) : noLeadSpace (trimChars l) = true :=
  noLeadSpace_trimTrail (noLeadSpace_trimLead l)

theorem trimChars_noTrail (l : List Char) : noTrailSpace (trimChars l) = true :=
  noTrailSpace_trimTrail _

theorem trimChars_eq_self {l : List Char} (h1 : noLeadSpace l = true)
    (h2 : noTrailSpace l = true) : trimChars l = l := by
  rw [trimChars, trimLead_eq_self h1, trimTrail_eq_self h2]

theorem trimChars_idem (l : List Char) : trimChars (trimChars l) = trimChars l :=
  trimChars_eq_self (trimChars_noLead l) (trimChars_noTrail l)

theorem mem_trimTrail {x : Char} {l : List Char} (h : x ∈ trimTrail l) : x ∈ l := by
  induction l with
  | nil => simp [trimTrail] at h
  | cons c cs ih =>
    rw [trimTrail] at h
    cases h2 : trimTrail cs with
    | nil =>
      rw [h2] at h
      by_cases hc : isJsSpace c
      · simp [hc] at h
      · simp [hc] at h
        simp [h]
    | cons y ys =>
      rw [h2] at h
      rcases List.mem_cons.mp h with h | h
      · simp [h]
      · exact List.mem_cons_of_mem _ (ih (h2 ▸ h))

theorem mem_trimChars {x : Char} {l : List Char} (h : x ∈ trimChars l) : x ∈ l :=
  (List.dropWhile_sublist isJsSpace).subset (mem_trimTrail h)

/-! ## Lemmas about `split('\n')` and `join('\n')` -/

theorem splitLines_ne_nil (l : List Char) : splitLines l ≠ [] := by
  cases l with
  | nil => simp [splitLines]
  | cons c cs =>
    rw [splitLines]
    by_cases h : c = '\n'
    · simp [h]
    · simp only [h, if_false]
      cases splitLines cs <;> simp

theorem splitLines_no_newline (l : List Char) : ∀ p ∈ splitLines l, '\n' ∉ p := by
  induction l with
  | nil =>
    intro p hp
    simp [splitLines] at hp
    simp [hp]
  | cons c cs ih =>
    intro p hp
    rw [splitLines] at hp
    by_cases h : c = '\n'
    · rw [if_pos h] at hp
      rcases List.mem_cons.mp hp with h2 | h2
      · simp [h2]
      · exact ih p h2
    · rw [if_neg h] at hp
      cases h2 : splitLines cs with
      | nil => exact absurd h2 (splitLines_ne_nil cs)
      | cons q qs =>
        rw [h2] at hp
        rcases List.mem_cons.mp hp with h3 | h3
        · subst h3
          intro hmem
          rcases List.mem_cons.mp hmem with h4 | h4
          · exact h h4.symm
          · exact ih q (h2 ▸ List.mem_cons_self q qs) h4
        · exact ih p (h2 ▸ List.mem_cons_of_mem q h3)

theorem splitLines_of_no_newline {l : List Char} (h : '\n' ∉ l) : splitLines l = [l] := by
  induction l with
  | nil => rfl
  | cons c cs ih =>
    have hc : ¬ c = '\n' := fun hh => h (hh ▸ List.mem_cons_self c cs)
    have hcs : '\n' ∉ cs := fun hh => h (List.mem_cons_of_mem c hh)
    rw [splitLines, if_neg hc, ih hcs]

theorem splitLines_append_newline {l : List Char} (rest : List Char) (h : '\n' ∉ l) :
    splitLines (l ++ '\n' :: rest) = l :: splitLines rest := by
  induction l with
  | nil => simp [splitLines]
  | cons c cs ih =>
    have hc : ¬ c = '\n' := fun hh => h (hh ▸ List.mem_cons_self c cs)
    have hcs : '\n' ∉ cs := fun hh => h (List.mem_cons_of_mem c hh)
    rw [List.cons_append, splitLines, if_neg hc, ih hcs]

theorem splitLines_joinLines {ls : List (List Char)} (h0 : ls ≠ [])
    (h : ∀ p ∈ ls, '\n' ∉ p) : splitLines (joinLines ls) = ls := by
  induction ls with
  | nil => exact absurd rfl h0
  | cons l tail ih =>
    cases tail with
    | nil => exact splitLines_of_no_newline (h l (List.mem_cons_self l []))
    | cons l2 ls2 =>
      rw [joinLines, splitLines_append_newline _ (h l (List.mem_cons_self _ _))]
      rw [ih (by simp) (fun p hp => h p (List.mem_cons_of_mem l hp))]

theorem joinLines_ne_nil {l : List Char} (ls : List (List Char)) (h : l ≠ []) :
    joinLines (l :: ls) ≠ [] := by
  cases ls with
  | nil => simpa [joinLines] using h
  | cons l2 ls2 =>
    rw [joinLines]
    cases l with
    | nil => exact absurd rfl h
    | cons c cs => simp

theorem noLeadSpace_append {l : List Char} (z : List Char) (h : l ≠ []) :
    noLeadSpace (l ++ z) = noLeadSpace l := by
  cases l with
  | nil => exact absurd rfl h
  | cons c cs => rfl

theorem noTrailSpace_append {ys : List Char} (xs : List Char) (h : ys ≠ []) :
    noTrailSpace (xs ++ ys) = noTrailSpace ys := by
  induction xs with
  | nil => rfl
  | cons x xs ih =>
    rw [List.cons_append]
    cases h2 : xs ++ ys with
    | nil => exact absurd (List.append_eq_nil.mp h2).2 h
    | cons w ws =>
      calc noTrailSpace (x :: w :: ws) = noTrailSpace (w :: ws) := rfl
        _ = noTrailSpace (xs ++ ys) := by rw [h2]
        _ = noTrailSpace ys := ih

theorem noLeadSpace_joinLines {l : List Char} (ls : List (List Char))
    (h : noLeadSpace l = true) (hne : l ≠ []) :
    noLeadSpace (joinLines (l :: ls)) = true := by
  cases ls with
  | nil => exact h
  | cons l2 ls2 => rw [joinLines, noLeadSpace_append _ hne]; exact h

theorem noTrailSpace_joinLines {ls : List (List Char)}
    (h : ∀ l ∈ ls, l ≠ [] ∧ noTrailSpace l = true) (hne : ls ≠ []) :
    noTrailSpace (joinLines ls) = true := by
  induction ls with
  | nil => exact absurd rfl hne
  | cons l tail ih =>
    cases tail with
    | nil => exact (h l (List.mem_cons_self l [])).2
    | cons l2 ls2 =>
      rw [joinLines]
      have hJ : joinLines (l2 :: ls2) ≠ [] :=
        joinLines_ne_nil ls2 (h l2 (List.mem_cons_of_mem l (List.mem_cons_self _ _))).1
      rw [noTrailSpace_append _ (by simp)]
      cases h2 : joinLines (l2 :: ls2) with
      | nil => exact absurd h2 hJ
      | cons w ws =>
        calc noTrailSpace ('\n' :: w :: ws) = noTrailSpace (w :: ws) := rfl
          _ = noTrailSpace (joinLines (l2 :: ls2)) := by rw [h2]
          _ = true := ih (fun p hp => h p (List.mem_cons_of_mem l hp)) (by simp)

/-! ## Lemmas about the scan loop of `cleanEmailContent` -/

theorem scanLines_mem {l : List Char} {ls : List (List Char)} (h : l ∈ scanLines ls) :
    l ∈ ls ∧ l ≠ [] ∧ keepLine l = true := by
  induction ls with
  | nil => simp [scanLines] at h
  | cons a rest ih =>
    rw [scanLines] at h
    by_cases ha : a = []
    · rw [if_pos ha] at h
      rcases ih h with ⟨h1, h2, h3⟩
      exact ⟨List.mem_cons_of_mem a h1, h2, h3⟩
    · rw [if_neg ha] at h
      by_cases h1 : hasImportantInfo a
      · rw [if_pos h1] at h
        rcases List.mem_cons.mp h with h2 | h2
        · subst h2
          exact ⟨List.mem_cons_self _ _, ha, by simp [keepLine, h1]⟩
        · rcases ih h2 with ⟨h3, h4, h5⟩
          exact ⟨List.mem_cons_of_mem a h3, h4, h5⟩
      · rw [if_neg h1] at h
        by_cases h2 : isSignatureSep a
        · rw [if_pos h2] at h; simp at h
        · rw [if_neg h2] at h
          by_cases h3 : isEmailSignature a
          · rw [if_pos h3] at h; simp at h
          · rw [if_neg h3, if_pos (List.length_pos.mpr ha)] at h
            rcases List.mem_cons.mp h with h4 | h4
            · subst h4
              refine ⟨List.mem_cons_self _ _, ha, ?_⟩
              simp [keepLine, h2, h3]
            · rcases ih h4 with ⟨h5, h6, h7⟩
              exact ⟨List.mem_cons_of_mem a h5, h6, h7⟩

theorem scanLines_fixed {ls : List (List Char)}
    (h : ∀ l ∈ ls, l ≠ [] ∧ keepLine l = true) : scanLines ls = ls := by
  induction ls with
  | nil => rfl
  | cons a rest ih =>
    rcases h a (List.mem_cons_self a rest) with ⟨ha, hk⟩
    have hrest := ih (fun l hl => h l (List.mem_cons_of_mem a hl))
    rw [scanLines, if_neg ha]
    by_cases h1 : hasImportantInfo a
    · rw [if_pos h1, hrest]
    · have h23 : isSignatureSep a = false ∧ isEmailSignature a = false := by
        simp only [keepLine, h1, Bool.false_or, Bool.and_eq_true, Bool.not_eq_true'] at hk
        exact hk
      rw [if_neg h1, if_neg (by simp [h23.1]), if_neg (by simp [h23.2]),
        if_pos (List.length_pos.mpr ha), hrest]

theorem map_trimChars_fixed {ls : List (List Char)} (h : ∀ l ∈ ls, trimChars l = l) :
    ls.map trimChars = ls := by
  rw [List.map_congr_left h, List.map_id']

/-- The scan loop output consists of trimmed, nonempty, newline-free lines
that the loop would pass through unchanged. -/
theorem cleanChars_core_props (cs : List Char) :
    ∀ l ∈ scanLines ((splitLines cs).map trimChars),
      l ≠ [] ∧ keepLine l = true ∧ noLeadSpace l = true ∧ noTrailSpace l = true ∧
      trimChars l = l ∧ '\n' ∉ l := by
  intro l hl
  rcases scanLines_mem hl with ⟨hmem, hne, hkeep⟩
  rcases List.mem_map.mp hmem with ⟨p, hp, hlp⟩
  subst hlp
  refine ⟨hne, hkeep, trimChars_noLead p, trimChars_noTrail p,
    trimChars_idem p, ?_⟩
  intro hnl
  exact splitLines_no_newline cs p hp (mem_trimChars hnl)

theorem cleanChars_idem (cs : List Char) : cleanChars (cleanChars cs) = cleanChars cs := by
  have hprops := cleanChars_core_props cs
  cases hc : scanLines ((splitLines cs).map trimChars) with
  | nil =>
    have h1 : cleanChars cs = [] := by rw [cleanChars, hc]; rfl
    rw [h1]
    rfl
  | cons c0 core' =>
    rw [hc] at hprops
    have hne : (c0 :: core') ≠ [] := by simp
    have hnl : ∀ p ∈ c0 :: core', '\n' ∉ p := fun p hp => (hprops p hp).2.2.2.2.2
    have hJt : trimChars (joinLines (c0 :: core')) = joinLines (c0 :: core') := by
      apply trimChars_eq_self
      · exact noLeadSpace_joinLines core' (hprops c0 (List.mem_cons_self _ _)).2.2.1
          (hprops c0 (List.mem_cons_self _ _)).1
      · exact noTrailSpace_joinLines
          (fun l hl => ⟨(hprops l hl).1, (hprops l hl).2.2.2.1⟩) hne
    have h1 : cleanChars cs = joinLines (c0 :: core') := by rw [cleanChars, hc, hJt]
    rw [h1, cleanChars, splitLines_joinLines hne hnl,
      map_trimChars_fixed (fun l hl => (hprops l hl).2.2.2.2.1),
      scanLines_fixed (fun l hl => ⟨(hprops l hl).1, (hprops l hl).2.1⟩), hJt]

/-! ## Lemmas about the Dedup Ledger (`Set` semantics) -/

theorem subset_setAdd (l : List Nat) (u : Nat) : l ⊆ setAdd l u := by
  intro x hx
  rw [setAdd]
  split
  · exact hx
  · exact List.mem_append_left _ hx

theorem mem_setAdd_self (l : List Nat) (u : Nat) : u ∈ setAdd l u := by
  rw [setAdd]
  split
  · assumption
  · exact List.mem_append_right _ (List.mem_singleton.mpr rfl)

theorem subset_foldl_setAdd (us : List Nat) (l : List Nat) : l ⊆ us.foldl setAdd l := by
  induction us generalizing l with
  | nil => exact fun x hx => hx
  | cons u us ih =>
    rw [List.foldl_cons]
    exact fun x hx => ih (setAdd l u) (subset_setAdd l u hx)

theorem mem_foldl_setAdd (us : List Nat) (l : List Nat) :
    ∀ u ∈ us, u ∈ us.foldl setAdd l := by
  induction us generalizing l with
  | nil => intro u hu; simp at hu
  | cons v vs ih =>
    intro u hu
    rw [List.foldl_cons]
    rcases List.mem_cons.mp hu with h | h
    · exact subset_foldl_setAdd vs (setAdd l v) (h ▸ mem_setAdd_self l v)
    · exact ih (setAdd l v) u h

/-! ## Lemmas about the JS descending sort -/

theorem insertDesc_perm (key : MessageRec → Nat) (m : MessageRec) (l : List MessageRec) :
    (insertDesc key m l).Perm (m :: l) := by
  induction l with
  | nil => exact List.Perm.refl _
  | cons x xs ih =>
    rw [insertDesc]
    split
    · exact List.Perm.refl _
    · exact (ih.cons x).trans (List.Perm.swap m x xs)

theorem sortDesc_perm (key : MessageRec → Nat) (l : List MessageRec) :
    (sortDesc key l).Perm l := by
  induction l with
  | nil => exact List.Perm.refl _
  | cons a t ih =>
    rw [sortDesc, List.foldr_cons]
    exact (insertDesc_perm key a _).trans (ih.cons a)

theorem insertDesc_append (key : MessageRec → Nat) (m : MessageRec) {l : List MessageRec}
    (h : ∀ x ∈ l, ¬ key x < key m) : insertDesc key m l = l ++ [m] := by
  induction l with
  | nil => rfl
  | cons x xs ih =>
    rw [insertDesc, if_neg (h x (List.mem_cons_self x xs))]
    rw [ih (fun y hy => h y (List.mem_cons_of_mem x hy)), List.cons_append]

theorem sortDesc_of_pairwise (key : MessageRec → Nat) {l : List MessageRec}
    (h : l.Pairwise fun a b => key a < key b) : sortDesc key l = l.reverse := by
  induction l with
  | nil => rfl
  | cons a t ih =>
    rcases List.pairwise_cons.mp h with ⟨ha, ht⟩
    rw [sortDesc, List.foldr_cons]
    have h1 : sortDesc key t = t.reverse := ih ht
    rw [show List.foldr (insertDesc key) [] t = sortDesc key t from rfl, h1]
    rw [insertDesc_append key a
      (fun x hx => Nat.not_lt.mpr (Nat.le_of_lt (ha x (List.mem_reverse.mp hx))))]
    rw [List.reverse_cons]

theorem range1_pairwise (s n : Nat) : (List.range' s n).Pairwise (· < ·) := by
  induction n generalizing s with
  | zero => simp
  | succ n ih =>
    rw [List.range'_succ]
    exact List.Pairwise.cons
      (fun b hb => Nat.lt_of_succ_le (List.mem_range'_1.mp hb).1) (ih (s + 1))

/-! ## Lemmas about one detection pass (`fetchLatestUnread`) -/

theorem passCore_ledger_mono (st : MonitorState) (results : List Nat)
    (msgs : Nat → MessageRec) :
    st.lastCheckedUids ⊆ (passCore st results msgs).1.lastCheckedUids := by
  rw [passCore]
  split
  · exact fun x hx => hx
  · exact subset_foldl_setAdd _ _

theorem passCore_fetched_fresh (st : MonitorState) (results : List Nat)
    (msgs : Nat → MessageRec) :
    ∀ u ∈ (passCore st results msgs).2.fetched, u ∉ st.lastCheckedUids := by
  rw [passCore]
  split
  · intro u hu; simp at hu
  · intro u hu
    exact of_decide_eq_true (List.mem_filter.mp hu).2

theorem passCore_fetched_in_new (st : MonitorState) (results : List Nat)
    (msgs : Nat → MessageRec) :
    ∀ u ∈ (passCore st results msgs).2.fetched,
      u ∈ (passCore st results msgs).1.lastCheckedUids := by
  rw [passCore]
  split
  · intro u hu; simp at hu
  · intro u hu
    exact mem_foldl_setAdd _ _ u hu

theorem passCore_reserved (st : MonitorState) (results : List Nat)
    (msgs : Nat → MessageRec) :
    ∀ u ∈ (passCore st results msgs).2.fetched,
      u ∈ (passCore st results msgs).2.ledgerAtFetch := by
  rw [passCore]
  split
  · intro u hu; simp at hu
  · intro u hu
    exact mem_foldl_setAdd _ _ u hu

theorem passCore_fetched_nodup (st : MonitorState) (results : List Nat)
    (msgs : Nat → MessageRec) (h : results.Nodup) :
    (passCore st results msgs).2.fetched.Nodup := by
  rw [passCore]
  split
  · simp
  · exact List.Nodup.filter _ h

theorem passCore_batch_perm (st : MonitorState) (results : List Nat)
    (msgs : Nat → MessageRec) (hm : ∀ u, (msgs u).uid = u) :
    ((passCore st results msgs).2.batch.map MessageRec.uid).Perm
      (passCore st results msgs).2.fetched := by
  simp only [passCore]
  split
  · exact List.Perm.refl _
  · refine ((sortDesc_perm MessageRec.seqno _).map MessageRec.uid).trans ?_
    have h2 : List.map (MessageRec.uid ∘ msgs)
        (List.filter (fun u => decide (u ∉ st.lastCheckedUids)) results) =
        List.filter (fun u => decide (u ∉ st.lastCheckedUids)) results := by
      rw [show MessageRec.uid ∘ msgs = fun u => (msgs u).uid from rfl]
      rw [List.map_congr_left (fun u _ => hm u), List.map_id']
    rw [List.map_map, h2]

theorem fetchLatestUnread_ok (st : MonitorState) (results : List Nat)
    (msgs : Nat → MessageRec) :
    fetchLatestUnread st (.ok results) msgs =
      if st.hasImap && st.isMonitoring then
        if results = [] then (st, ⟨true, [], [], [], 0⟩) else passCore st results msgs
      else (st, PassOut.idle) := rfl

theorem fetchLatestUnread_err (st : MonitorState) (e : Unit) (msgs : Nat → MessageRec) :
    fetchLatestUnread st (.error e) msgs =
      if st.hasImap && st.isMonitoring then (st, ⟨true, [], [], [], 0⟩)
      else (st, PassOut.idle) := rfl

theorem fetch_ledger_mono (st : MonitorState) (q : Except Unit (List Nat))
    (msgs : Nat → MessageRec) :
    st.lastCheckedUids ⊆ (fetchLatestUnread st q msgs).1.lastCheckedUids := by
  cases q with
  | error e =>
    rw [fetchLatestUnread_err]
    split
    · exact fun x hx => hx
    · exact fun x hx => hx
  | ok results =>
    rw [fetchLatestUnread_ok]
    split
    · split
      · exact fun x hx => hx
      · exact passCore_ledger_mono st results msgs
    · exact fun x hx => hx

theorem fetch_fetched_fresh (st : MonitorState) (q : Except Unit (List Nat))
    (msgs : Nat → MessageRec) :
    ∀ u ∈ (fetchLatestUnread st q msgs).2.fetched, u ∉ st.lastCheckedUids := by
  cases q with
  | error e =>
    rw [fetchLatestUnread_err]
    split
    · intro u hu; simp at hu
    · intro u hu; simp [PassOut.idle] at hu
  | ok results =>
    rw [fetchLatestUnread_ok]
    split
    · split
      · intro u hu; simp at hu
      · exact passCore_fetched_fresh st results msgs
    · intro u hu; simp [PassOut.idle] at hu

theorem fetch_fetched_in_new (st : MonitorState) (q : Except Unit (List Nat))
    (msgs : Nat → MessageRec) :
    ∀ u ∈ (fetchLatestUnread st q msgs).2.fetched,
      u ∈ (fetchLatestUnread st q msgs).1.lastCheckedUids := by
  cases q with
  | error e =>
    rw [fetchLatestUnread_err]
    split
    · intro u hu; simp at hu
    · intro u hu; simp [PassOut.idle] at hu
  | ok results =>
    rw [fetchLatestUnread_ok]
    split
    · split
      · intro u hu; simp at hu
      · exact passCore_fetched_in_new st results msgs
    · intro u hu; simp [PassOut.idle] at hu

theorem fetch_reserved (st : MonitorState) (q : Except Unit (List Nat))
    (msgs : Nat → MessageRec) :
    ∀ u ∈ (fetchLatestUnread st q msgs).2.fetched,
      u ∈ (fetchLatestUnread st q msgs).2.ledgerAtFetch := by
  cases q with
  | error e =>
    rw [fetchLatestUnread_err]
    split
    · intro u hu; simp at hu
    · intro u hu; simp [PassOut.idle] at hu
  | ok results =>
    rw [fetchLatestUnread_ok]
    split
    · split
      · intro u hu; simp at hu
      · exact passCore_reserved st results msgs
    · intro u hu; simp [PassOut.idle] at hu

theorem fetch_fetched_nodup (st : MonitorState) (results : List Nat)
    (msgs : Nat → MessageRec) (h : results.Nodup) :
    (fetchLatestUnread st (.ok results) msgs).2.fetched.Nodup := by
  rw [fetchLatestUnread_ok]
  split
  · split
    · simp
    · exact passCore_fetched_nodup st results msgs h
  · simp [PassOut.idle]

theorem fetch_batch_perm (st : MonitorState) (q : Except Unit (List Nat))
    (msgs : Nat → MessageRec) (hm : ∀ u, (msgs u).uid = u) :
    ((fetchLatestUnread st q msgs).2.batch.map MessageRec.uid).Perm
      (fetchLatestUnread st q msgs).2.fetched := by
  cases q with
  | error e =>
    rw [fetchLatestUnread_err]
    split
    · exact List.Perm.refl _
    · exact List.Perm.refl _
  | ok results =>
    rw [fetchLatestUnread_ok]
    split
    · split
      · exact List.Perm.refl _
      · exact passCore_batch_perm st results msgs hm
    · exact List.Perm.refl _

/-! ## Lemmas about a whole run of detection passes -/

theorem runPasses_ledger_mono (msgs : Nat → MessageRec) (searches : List (List Nat)) :
    ∀ st : MonitorState,
      st.lastCheckedUids ⊆ (runPasses msgs st searches).1.lastCheckedUids := by
  induction searches with
  | nil => intro st; exact fun x hx => hx
  | cons s rest ih =>
    intro st
    simp only [runPasses]
    exact fun x hx => ih _ (fetch_ledger_mono st (.ok s) msgs hx)

theorem runPasses_spec (msgs : Nat → MessageRec) (searches : List (List Nat)) :
    ∀ st : MonitorState, (∀ s ∈ searches, s.Nodup) →
      ((runPasses msgs st searches).2.map PassOut.fetched).flatten.Nodup ∧
      ∀ u ∈ ((runPasses msgs st searches).2.map PassOut.fetched).flatten,
        u ∉ st.lastCheckedUids ∧ u ∈ (runPasses msgs st searches).1.lastCheckedUids := by
  induction searches with
  | nil =>
    intro st h
    refine ⟨by simp [runPasses], ?_⟩
    intro u hu
    simp [runPasses] at hu
  | cons s rest ih =>
    intro st h
    have hs : s.Nodup := h s (List.mem_cons_self s rest)
    have hrest := ih (fetchLatestUnread st (.ok s) msgs).1
      (fun t ht => h t (List.mem_cons_of_mem s ht))
    simp only [runPasses, List.map_cons, List.flatten_cons]
    constructor
    · refine List.Nodup.append (fetch_fetched_nodup st s msgs hs) hrest.1 ?_
      intro a ha hb
      exact (hrest.2 a hb).1 (fetch_fetched_in_new st (.ok s) msgs a ha)
    · intro u hu
      rcases List.mem_append.mp hu with h1 | h1
      · refine ⟨fetch_fetched_fresh st (.ok s) msgs u h1, ?_⟩
        exact runPasses_ledger_mono msgs rest _
          (fetch_fetched_in_new st (.ok s) msgs u h1)
      · refine ⟨fun hmem => (hrest.2 u h1).1 (fetch_ledger_mono st (.ok s) msgs hmem), ?_⟩
        exact (hrest.2 u h1).2

theorem runPasses_reserved (msgs : Nat → MessageRec) (searches : List (List Nat)) :
    ∀ st : MonitorState, ∀ o ∈ (runPasses msgs st searches).2,
      ∀ u ∈ o.fetched, u ∈ o.ledgerAtFetch := by
  induction searches with
  | nil => intro st o ho; simp [runPasses] at ho
  | cons s rest ih =>
    intro st o ho
    simp only [runPasses] at ho
    rcases List.mem_cons.mp ho with h | h
    · subst h; exact fetch_reserved st (.ok s) msgs
    · exact ih _ o h

theorem runPasses_batch_perm (msgs : Nat → MessageRec) (searches : List (List Nat))
    (hm : ∀ u, (msgs u).uid = u) :
    ∀ st : MonitorState, ∀ o ∈ (runPasses msgs st searches).2,
      (o.batch.map MessageRec.uid).Perm o.fetched := by
  induction searches with
  | nil => intro st o ho; simp [runPasses] at ho
  | cons s rest ih =>
    intro st o ho
    simp only [runPasses] at ho
    rcases List.mem_cons.mp ho with h | h
    · subst h; exact fetch_batch_perm st (.ok s) msgs hm
    · exact ih _ o h

/-! ## Remaining helper lemmas -/

theorem passCore_searchIssued (st : MonitorState) (results : List Nat)
    (msgs : Nat → MessageRec) :
    (passCore st results msgs).2.searchIssued = true := by
  rw [passCore]
  split
  · rfl
  · rfl

theorem fetch_searchIssued (st : MonitorState) (results : List Nat)
    (msgs : Nat → MessageRec) (h : (st.hasImap && st.isMonitoring) = true) :
    (fetchLatestUnread st (.ok results) msgs).2.searchIssued = true := by
  rw [fetchLatestUnread_ok, if_pos h]
  split
  · rfl
  · exact passCore_searchIssued st results msgs

theorem passCore_no_new (st : MonitorState) (results : List Nat)
    (msgs : Nat → MessageRec)
    (hfil : results.filter (fun u => decide (u ∉ st.lastCheckedUids)) = []) :
    passCore st results msgs = (st, ⟨true, [], [], [], 0⟩) := by
  simp only [passCore, hfil]
  rfl

/-! ## The claims -/

/-- C1 (amended): in the current watcher (`src/unnamed/part_000`,
`fetchLatestUnread`), every UID a detection pass selects is already in
`lastCheckedUids` when the fetch is issued, over any sequence of detection
passes no UID is ever fetched twice, and each dispatched batch carries
exactly that pass's fetched UIDs — so each UID is fetched and dispatched at
most once per run.  (The older duplicate `src/src/index.ts` violates the
original claim; see the counterexample.) -/
theorem c1_uid_reserved_before_fetch (st : MonitorState) (msgs : Nat → MessageRec)
    (searches : List (List Nat)) (hnd : ∀ s ∈ searches, s.Nodup)
    (hm : ∀ u, (msgs u).uid = u) :
    ((runPasses msgs st searches).2.map PassOut.fetched).flatten.Nodup ∧
    (∀ o ∈ (runPasses msgs st searches).2, ∀ u ∈ o.fetched, u ∈ o.ledgerAtFetch) ∧
    (∀ o ∈ (runPasses msgs st searches).2, (o.batch.map MessageRec.uid).Perm o.fetched) :=
  ⟨(runPasses_spec msgs searches st hnd).1, runPasses_reserved msgs searches st,
   runPasses_batch_perm msgs searches hm st⟩

/-- Witness for C1: a concrete running watcher and two overlapping passes
whose searches both return UID 2; it is fetched only once. -/
theorem c1_uid_reserved_before_fetch_witness :
    ((∀ s ∈ [[1, 2], [2, 3]], List.Nodup s) ∧
      (∀ u, ((fun u => (⟨u, u⟩ : MessageRec)) u).uid = u)) ∧
    ((runPasses (fun u => ⟨u, u⟩) ⟨true, true, true, none, none, 0, [], 0⟩
        [[1, 2], [2, 3]]).2.map PassOut.fetched).flatten.Nodup :=
  ⟨⟨by decide, fun u => rfl⟩,
   (c1_uid_reserved_before_fetch ⟨true, true, true, none, none, 0, [], 0⟩
     (fun u => ⟨u, u⟩) [[1, 2], [2, 3]] (by decide) (fun u => rfl)).1⟩

/-- C1 counterexample: in the older duplicate `src/src/index.ts`, where the
ledger is updated only when the fetched message's attributes arrive, a second
detection pass that starts before the first fetch completes re-selects UID 7:
it is fetched twice and dispatched twice within one run. -/
theorem c1_indexts_overlap_reselects_uid :
    (idxRun [.trigger [7], .trigger [7], .deliver, .deliver]).fetchedLog = [[7], [7]] ∧
    ((idxRun [.trigger [7], .trigger [7], .deliver, .deliver]).batches.flatten.count 7) = 2 := by
  decide

/-- C2 (code bug, evaluated at the failing input): the line `密码@qq.com`
contains the sensitive token `密码`, yet `cleanEmailContent` drops it and
stops scanning — JS `\b` never matches next to CJK characters unless they
are flanked by ASCII word characters, so the protection regex fails and the
pure-email-address signature rule fires.  The same line with the English
token `code` is retained and scanning continues. -/
theorem c2_cjk_sensitive_line_dropped :
    cleanEmailContent "你好\n密码@qq.com\n尾行" = "你好" ∧
    cleanEmailContent "你好\ncode@qq.com\n尾行" = "你好\ncode@qq.com\n尾行" :=
  ⟨by decide, by decide⟩

/-- C3 (code bug, evaluated at the failing input): in the dispatch loop of
`src/src/index.ts`, a message (UID 5) whose `ctx.broadcast` fails
asynchronously is still flagged `\Deleted` and expunged, because the
broadcast promise is not awaited and its rejection never reaches the `catch`
that is supposed to leave the message untouched. -/
theorem c3_send_failure_still_deletes :
    handleNewMailIndexTs (fun _ => SendOutcome.asyncFail) (fun _ => true)
      [⟨1, 5⟩] = [⟨5, true, true⟩] := rfl

/-- C4: `cleanEmailContent` on
`"Hi,\nYour code is 123456\n--\nJohn Doe\njohn@example.com"` keeps the first
two lines (the second protected as sensitive) and stops at the `--`
separator. -/
theorem c4_clean_example :
    cleanEmailContent "Hi,\nYour code is 123456\n--\nJohn Doe\njohn@example.com" =
      "Hi,\nYour code is 123456" := by
  decide

/-- C5: `cleanEmailContent` is idempotent. -/
theorem c5_clean_idempotent (text : String) :
    cleanEmailContent (cleanEmailContent text) = cleanEmailContent text := by
  by_cases h : text = ""
  · subst h; rfl
  · have h1 : cleanEmailContent text = String.mk (cleanChars text.data) := by
      rw [cleanEmailContent, if_neg h]
    rw [h1]
    by_cases h2 : String.mk (cleanChars text.data) = ""
    · rw [h2]; rfl
    · rw [cleanEmailContent, if_neg h2]
      exact congrArg String.mk (cleanChars_idem text.data)

/-- C6: after `stopMailMonitor`, a pending poll-timer or reconnect-timer
callback that still fires performs no detection pass, re-arms nothing,
attempts no reconnect and leaves the state unchanged. -/
theorem c6_timers_inert_after_stop (st : MonitorState) (q : Except Unit (List Nat))
    (msgs : Nat → MessageRec) (conn : ConnOutcome) :
    pollFire (stopMailMonitor st) q msgs = (stopMailMonitor st, PassOut.idle) ∧
    reconnectFire (stopMailMonitor st) conn msgs =
      (stopMailMonitor st, ⟨false, PassOut.idle⟩) :=
  ⟨rfl, rfl⟩

/-- C7: a session drop while the watcher is running (and the session
listeners are attached) arms the reconnect timer with the fixed delay exactly
once — a second session event schedules nothing — preserves the Dedup
Ledger, and a successful reconnect resumes detection (a search is issued)
without re-selecting any UID already in the ledger; only `stopMailMonitor`
clears the ledger. -/
theorem c7_disconnect_single_reconnect (pt rt : Option Nat) (lmc n total : Nat)
    (led results : List Nat) (msgs : Nat → MessageRec) :
    (disconnectEvent ⟨true, true, true, pt, rt, lmc, led, n⟩).reconnectTimer =
      some reconnectDelayMs ∧
    (disconnectEvent ⟨true, true, true, pt, rt, lmc, led, n⟩).reconnectsScheduled = n + 1 ∧
    disconnectEvent (disconnectEvent ⟨true, true, true, pt, rt, lmc, led, n⟩) =
      disconnectEvent ⟨true, true, true, pt, rt, lmc, led, n⟩ ∧
    (disconnectEvent ⟨true, true, true, pt, rt, lmc, led, n⟩).lastCheckedUids = led ∧
    (reconnectFire (disconnectEvent ⟨true, true, true, pt, rt, lmc, led, n⟩)
      (.success total results) msgs).2.attempted = true ∧
    (reconnectFire (disconnectEvent ⟨true, true, true, pt, rt, lmc, led, n⟩)
      (.success total results) msgs).2.pass.searchIssued = true ∧
    (∀ u ∈ (reconnectFire (disconnectEvent ⟨true, true, true, pt, rt, lmc, led, n⟩)
      (.success total results) msgs).2.pass.fetched, u ∉ led) ∧
    (stopMailMonitor (disconnectEvent ⟨true, true, true, pt, rt, lmc, led, n⟩)).lastCheckedUids
      = [] := by
  refine ⟨rfl, rfl, rfl, rfl, rfl, ?_, ?_, rfl⟩
  · exact fetch_searchIssued ⟨true, true, true, pt, none, total, led, n + 1⟩ results msgs rfl
  · exact fetch_fetched_fresh ⟨true, true, true, pt, none, total, led, n + 1⟩ (.ok results) msgs

/-- C8: a detection pass whose `UNSEEN` search returns only UIDs already in
the Dedup Ledger (or returns none at all) issues no fetch, invokes the
callback zero times and leaves the watcher state unchanged. -/
theorem c8_no_new_uids_no_dispatch (st : MonitorState) (results : List Nat)
    (msgs : Nat → MessageRec) (h : ∀ u ∈ results, u ∈ st.lastCheckedUids) :
    (fetchLatestUnread st (.ok results) msgs).1 = st ∧
    (fetchLatestUnread st (.ok results) msgs).2.fetched = [] ∧
    (fetchLatestUnread st (.ok results) msgs).2.dispatches = 0 := by
  have hfil : results.filter (fun u => decide (u ∉ st.lastCheckedUids)) = [] := by
    rw [List.filter_eq_nil_iff]
    intro a ha
    simp [h a ha]
  rw [fetchLatestUnread_ok]
  split
  · split
    · exact ⟨rfl, rfl, rfl⟩
    · rw [passCore_no_new st results msgs hfil]
      exact ⟨rfl, rfl, rfl⟩
  · exact ⟨rfl, rfl, rfl⟩

/-- Witness for C8: a watcher whose ledger already holds UID 3 and a search
returning only UID 3. -/
theorem c8_no_new_uids_no_dispatch_witness :
    (∀ u ∈ [3], u ∈ (⟨true, true, true, none, none, 0, [3], 0⟩ :
      MonitorState).lastCheckedUids) ∧
    (fetchLatestUnread ⟨true, true, true, none, none, 0, [3], 0⟩ (.ok [3])
      (fun u => ⟨u, u⟩)).2.fetched = [] ∧
    (fetchLatestUnread ⟨true, true, true, none, none, 0, [3], 0⟩ (.ok [3])
      (fun u => ⟨u, u⟩)).2.dispatches = 0 :=
  ⟨by decide,
   (c8_no_new_uids_no_dispatch ⟨true, true, true, none, none, 0, [3], 0⟩ [3]
     (fun u => ⟨u, u⟩) (by decide)).2⟩

/-- C9: when the unfiltered `ALL` search of the `'all'` listing path is
rejected, the fallback (`getMailList`) returns exactly the messages with
sequence numbers in `[max(1, total - limit + 1), total]`, newest-first. -/
theorem c9_list_all_fallback (box : Mailbox) (limit : Nat)
    (hseq : ∀ n, (box.msgAt n).seqno = n) :
    listAllMessages (Except.error ()) box limit = getMailList box limit ∧
    (listAllMessages (Except.error ()) box limit).map MessageRec.seqno =
      (List.range' ((max 1 ((box.total : Int) - (limit : Int) + 1)).toNat)
        (box.total + 1 -
          (max 1 ((box.total : Int) - (limit : Int) + 1)).toNat)).reverse := by
  refine ⟨rfl, ?_⟩
  show (getMailList box limit).map MessageRec.seqno = _
  rw [getMailList]
  split
  · rename_i h0
    have h1 : (max 1 ((box.total : Int) - (limit : Int) + 1)).toNat = 1 := by
      rw [h0]; omega
    rw [h1, h0]
    simp
  · have hpair : ((List.range'
        ((max 1 ((box.total : Int) - (limit : Int) + 1)).toNat)
        (box.total + 1 - (max 1 ((box.total : Int) - (limit : Int) + 1)).toNat)).map
          box.msgAt).Pairwise
        (fun a b => MessageRec.seqno a < MessageRec.seqno b) := by
      rw [List.pairwise_map]
      refine (range1_pairwise _ _).imp ?_
      intro a b hab
      rw [hseq a, hseq b]
      exact hab
    rw [sortDesc_of_pairwise MessageRec.seqno hpair, List.map_reverse, List.map_map]
    rw [show MessageRec.seqno ∘ box.msgAt = fun a => (box.msgAt a).seqno from rfl]
    rw [List.map_congr_left (fun a _ => hseq a), List.map_id']

/-- Witness for C9: a folder with 3 messages listed with limit 10 returns all
3, newest-first. -/
theorem c9_list_all_fallback_witness :
    (∀ n, ((⟨3, fun k => ⟨k, k + 100⟩⟩ : Mailbox).msgAt n).seqno = n) ∧
    (listAllMessages (Except.error ()) ⟨3, fun k => ⟨k, k + 100⟩⟩ 10).map
      MessageRec.seqno = [3, 2, 1] :=
  ⟨fun n => rfl, by
    rw [(c9_list_all_fallback ⟨3, fun k => ⟨k, k + 100⟩⟩ 10 (fun n => rfl)).2]
    decide⟩

/-- C10: when the connection attempt of `startMailMonitor` fails, the error
is rethrown (`StartResult.failed`), `isMonitoring` is reset to `false`,
`getMonitorStatus` reports not monitoring, and a subsequent start is not
treated as a duplicate. -/
theorem c10_start_failure_resets (hi li : Bool) (pt rt : Option Nat) (lmc n : Nat)
    (led : List Nat) (msgs : Nat → MessageRec) :
    (startMailMonitor ⟨false, hi, li, pt, rt, lmc, led, n⟩ .fail msgs).2 =
      StartResult.failed ∧
    (startMailMonitor ⟨false, hi, li, pt, rt, lmc, led, n⟩ .fail msgs).1.isMonitoring
      = false ∧
    (getMonitorStatus
      (startMailMonitor ⟨false, hi, li, pt, rt, lmc, led, n⟩ .fail msgs).1).isMonitoring
      = false ∧
    ∀ (conn2 : ConnOutcome) (msgs2 : Nat → MessageRec),
      (startMailMonitor (startMailMonitor ⟨false, hi, li, pt, rt, lmc, led, n⟩
        .fail msgs).1 conn2 msgs2).2 ≠ StartResult.duplicate := by
  refine ⟨rfl, rfl, rfl, ?_⟩
  intro conn2 msgs2
  cases conn2 with
  | fail => exact fun hh => StartResult.noConfusion hh
  | success total results => exact fun hh => StartResult.noConfusion hh

end Mailbot
